import Mathlib

/-!
Verification development for the EduCopy repository.

The Python sources are shallowly embedded:
* `app/services/storage.py` — the `Storage` class keeps a JSON document with two
  dicts, `keys` (token → key record) and `users` (str(user_id) → user record).
  Python dicts are modelled as insertion-ordered association lists over `String`
  keys; in-place mutation of an entry keeps its position, a new entry is
  appended at the end, deletion filters the entry out.
* `app/services/authedu_client.py` — the retry loop of `fetch_homeworks` and the
  tolerant parser `_parse_homeworks`.  The network is an oracle mapping the
  attempt index to its outcome; JSON payloads are an inductive value type and
  Python exceptions become `Except` errors.
* `app/handlers/homework.py` — the key-input handler's token normalisation.
-/

namespace EduCopy

/-! ## Association lists modelling Python dicts -/

def alookup {α : Type} : List (String × α) → String → Option α
  | [], _ => none
  | p :: rest, k => if p.1 = k then some p.2 else alookup rest k

/-- In-place update of an existing dict entry (`d[k][...] = v` keeps the slot). -/
def aset {α : Type} (l : List (String × α)) (k : String) (v : α) : List (String × α) :=
  l.map (fun p => if p.1 = k then (k, v) else p)

/-- Deletion of a dict entry (`del d[k]`). -/
def aremove {α : Type} (l : List (String × α)) (k : String) : List (String × α) :=
  l.filter (fun p => !(p.1 == k))

theorem alookup_append_left {α : Type} {l m : List (String × α)} {k : String} {v : α}
    (h : alookup l k = some v) : alookup (l ++ m) k = some v := by
  induction l with
  | nil => simp [alookup] at h
  | cons p rest ih =>
    by_cases hk : p.1 = k
    · simpa [alookup, hk] using by simpa [alookup, hk] using h
    · simp only [alookup, hk, if_neg, List.cons_append] at h ⊢
      exact ih h

theorem alookup_append_right {α : Type} {l : List (String × α)} (m : List (String × α))
    {k : String} (h : alookup l k = none) : alookup (l ++ m) k = alookup m k := by
  induction l with
  | nil => simp
  | cons p rest ih =>
    by_cases hk : p.1 = k
    · simp [alookup, hk] at h
    · simp only [alookup, hk, if_neg, List.cons_append] at h ⊢
      exact ih h

theorem alookup_eq_none_iff {α : Type} {l : List (String × α)} {k : String} :
    alookup l k = none ↔ k ∉ l.map Prod.fst := by
  induction l with
  | nil => simp [alookup]
  | cons p rest ih =>
    by_cases hk : p.1 = k
    · simp [alookup, hk]
    · simp [alookup, hk, ih, Ne.symm hk]

theorem aset_cons {α : Type} (p : String × α) (rest : List (String × α)) (k : String) (v : α) :
    aset (p :: rest) k v = (if p.1 = k then (k, v) else p) :: aset rest k v := rfl

theorem aremove_cons {α : Type} (p : String × α) (rest : List (String × α)) (k : String) :
    aremove (p :: rest) k = if p.1 = k then aremove rest k else p :: aremove rest k := by
  by_cases hk : p.1 = k <;> simp [aremove, hk]

theorem alookup_mem {α : Type} {l : List (String × α)} {k : String} {v : α}
    (h : alookup l k = some v) : (k, v) ∈ l := by
  induction l with
  | nil => simp [alookup] at h
  | cons p rest ih =>
    obtain ⟨a, b⟩ := p
    by_cases hk : a = k
    · subst hk
      simp [alookup] at h
      subst h
      exact List.mem_cons_self _ _
    · simp [alookup, hk] at h
      exact List.mem_cons_of_mem _ (ih h)

theorem alookup_aset_self {α : Type} {l : List (String × α)} {k : String} {v0 : α} (v : α)
    (h : alookup l k = some v0) : alookup (aset l k v) k = some v := by
  induction l with
  | nil => simp [alookup] at h
  | cons p rest ih =>
    rw [aset_cons]
    by_cases hk : p.1 = k
    · simp [alookup, hk]
    · simp only [alookup, hk, ite_false, if_neg] at h
      simp [if_neg hk, alookup, hk, ih h]

theorem alookup_aset_ne {α : Type} {l : List (String × α)} {k k2 : String} {v : α}
    (h : k2 ≠ k) : alookup (aset l k v) k2 = alookup l k2 := by
  induction l with
  | nil => simp [aset, alookup]
  | cons p rest ih =>
    rw [aset_cons]
    by_cases hk : p.1 = k
    · simp [alookup, hk, Ne.symm h, ih]
    · rw [if_neg hk]
      by_cases hk2 : p.1 = k2
      · simp [alookup, hk2]
      · simp [alookup, hk2, ih]

theorem map_fst_aset {α : Type} (l : List (String × α)) (k : String) (v : α) :
    (aset l k v).map Prod.fst = l.map Prod.fst := by
  induction l with
  | nil => rfl
  | cons p rest ih =>
    rw [aset_cons]
    by_cases hk : p.1 = k
    · simp [hk, ih]
    · simp [if_neg hk, ih]

theorem mem_aset {α : Type} {l : List (String × α)} {k : String} {v : α} {p : String × α}
    (h : p ∈ aset l k v) : p = (k, v) ∨ (p ∈ l ∧ p.1 ≠ k) := by
  induction l with
  | nil => simp [aset] at h
  | cons q rest ih =>
    rw [aset_cons] at h
    rcases List.mem_cons.mp h with h1 | h1
    · by_cases hk : q.1 = k
      · simp only [hk, ite_true, if_pos] at h1
        exact Or.inl h1
      · simp only [hk, ite_false, if_neg] at h1
        exact Or.inr ⟨by simp [h1], by simp [h1, hk]⟩
    · rcases ih h1 with h2 | h2
      · exact Or.inl h2
      · exact Or.inr ⟨List.mem_cons_of_mem _ h2.1, h2.2⟩

theorem alookup_aremove_self {α : Type} (l : List (String × α)) (k : String) :
    alookup (aremove l k) k = none := by
  induction l with
  | nil => rfl
  | cons p rest ih =>
    rw [aremove_cons]
    by_cases hk : p.1 = k
    · simp [hk, ih]
    · simp [if_neg hk, alookup, hk, ih]

theorem alookup_aremove_ne {α : Type} {l : List (String × α)} {k k2 : String}
    (h : k2 ≠ k) : alookup (aremove l k) k2 = alookup l k2 := by
  induction l with
  | nil => rfl
  | cons p rest ih =>
    rw [aremove_cons]
    by_cases hk : p.1 = k
    · simp [hk, alookup, Ne.symm h, ih]
    · rw [if_neg hk]
      by_cases hk2 : p.1 = k2
      · simp [alookup, hk2]
      · simp [alookup, hk2, ih]

theorem mem_of_mem_aremove {α : Type} {l : List (String × α)} {k : String} {p : String × α}
    (h : p ∈ aremove l k) : p ∈ l ∧ p.1 ≠ k := by
  have h2 := List.of_mem_filter h
  refine ⟨List.mem_of_mem_filter h, ?_⟩
  simpa using h2

theorem nodup_map_fst_aremove {α : Type} {l : List (String × α)} {k : String}
    (h : (l.map Prod.fst).Nodup) : ((aremove l k).map Prod.fst).Nodup :=
  ((List.filter_sublist l).map Prod.fst).nodup h

/-! ## Data model of `app/services/storage.py`

The value part of one entry of the `keys` dict:
`{created_at, activated_by, activated_by_username, activated_at}`. -/

structure KeyData where
  created_at : String
  activated_by : Option Int
  activated_by_username : Option String
  activated_at : Option String
deriving DecidableEq

/-- The value part of one entry of the `users` dict:
`{user_id, username, key_used, activated_at}`. -/
structure UserData where
  user_id : Int
  username : Option String
  key_used : String
  activated_at : String
deriving DecidableEq

/-- The `Storage` object: `admin_id` plus the persisted JSON document
`{"keys": {...}, "users": {...}}`. -/
structure StorageData where
  admin_id : Int
  keys : List (String × KeyData)
  users : List (String × UserData)
deriving DecidableEq

/-- A fresh store, as built by `Storage.__init__` when no data file exists. -/
def emptyStore (admin_id : Int) : StorageData :=
  { admin_id := admin_id, keys := [], users := [] }

/-- The `AccessKey` dataclass of `storage.py`. -/
structure AccessKey where
  key : String
  created_at : String
  activated_by : Option Int
  activated_by_username : Option String
  activated_at : Option String
deriving DecidableEq

/-- `AccessKey.is_used`: `self.activated_by is not None`. -/
def AccessKey.is_used (k : AccessKey) : Bool :=
  k.activated_by.isSome

/-! ## Storage operations -/

/-- `Storage.activate_key(key, user_id, username)`: returns the boolean result and
the store after the call.  Mirrors the source: unknown token, already-used token
and already-registered `str(user_id)` each return `False` without mutation;
otherwise the key record is updated in place and a user record is appended. -/
def activate_key (s : StorageData) (key : String) (user_id : Int)
    (username : Option String) (now : String) : Bool × StorageData :=
  match alookup s.keys key with
  | none => (false, s)
  | some kd =>
    if kd.activated_by.isSome then (false, s)
    else if (alookup s.users (toString user_id)).isSome then (false, s)
    else
      (true,
        { s with
          keys := aset s.keys key
            { kd with
              activated_by := some user_id
              activated_by_username := username
              activated_at := some now }
          users := s.users ++
            [(toString user_id,
              { user_id := user_id, username := username, key_used := key
                activated_at := now })] })

/-- `Storage.delete_key(key)`.  The source guards the cascading user removal with
`if key_data.get("activated_by"):` — Python truthiness, so both `None` and the
integer `0` skip the removal; only a nonzero `activated_by` removes the user. -/
def delete_key (s : StorageData) (key : String) : Bool × StorageData :=
  match alookup s.keys key with
  | none => (false, s)
  | some kd =>
    let users2 :=
      match kd.activated_by with
      | some uid => if uid = 0 then s.users else aremove s.users (toString uid)
      | none => s.users
    (true, { s with keys := aremove s.keys key, users := users2 })

/-- `Storage.is_authorized(user_id)`: the admin is always authorized, otherwise
`str(user_id)` must be a key of the `users` dict. -/
def is_authorized (s : StorageData) (user_id : Int) : Bool :=
  user_id = s.admin_id || (alookup s.users (toString user_id)).isSome

/-- `Storage.is_admin(user_id)`. -/
def is_admin (s : StorageData) (user_id : Int) : Bool :=
  user_id = s.admin_id

/-- `Storage.get_user_count()`. -/
def get_user_count (s : StorageData) : Nat :=
  s.users.length

/-! ## Key listing (`Storage.get_all_keys`)

`keys.sort(key=lambda x: (x.is_used, x.created_at), reverse=True)` is Python's
stable sort, descending on the pair `(is_used, created_at)` with
`False < True` on booleans and code-point lexicographic order on strings. -/

/-- Python `<=` on strings: lexicographic comparison by code points. -/
def charsLe : List Char → List Char → Bool
  | [], _ => true
  | _ :: _, [] => false
  | a :: as, b :: bs =>
    if a.val < b.val then true
    else if b.val < a.val then false
    else charsLe as bs

def strLe (a b : String) : Bool :=
  charsLe a.data b.data

/-- Python `<=` on the sort key `(is_used, created_at)`. -/
def sortPairLe (p q : Bool × String) : Bool :=
  match p.1, q.1 with
  | false, true => true
  | true, false => false
  | _, _ => strLe p.2 q.2

/-- Stable insertion sort: an element is inserted before the first element it
compares `le` to, so elements with equal keys keep their original order —
the stability contract of Python's `list.sort`. -/
def orderedInsert {α : Type} (le : α → α → Bool) (a : α) : List α → List α
  | [] => [a]
  | b :: bs => if le a b then a :: b :: bs else b :: orderedInsert le a bs

def insertionSort {α : Type} (le : α → α → Bool) : List α → List α
  | [] => []
  | a :: as => orderedInsert le a (insertionSort le as)

/-- `Storage.get_all_keys()`: builds `AccessKey` records in dict iteration order,
then sorts with `reverse=True` on `(is_used, created_at)` — i.e. stably, with
`a` placed before `b` exactly when the key of `b` is `<=` the key of `a`. -/
def get_all_keys (s : StorageData) : List AccessKey :=
  insertionSort
    (fun a b => sortPairLe (b.is_used, b.created_at) (a.is_used, a.created_at))
    (s.keys.map (fun p =>
      { key := p.1, created_at := p.2.created_at, activated_by := p.2.activated_by
        activated_by_username := p.2.activated_by_username
        activated_at := p.2.activated_at }))

/-- `Storage.get_unused_keys()`. -/
def get_unused_keys (s : StorageData) : List AccessKey :=
  (get_all_keys s).filter (fun k => !k.is_used)

/-- `Storage.get_used_keys()`. -/
def get_used_keys (s : StorageData) : List AccessKey :=
  (get_all_keys s).filter (fun k => k.is_used)

/-! ## Key generation (`Storage.generate_key`)

`secrets.choice(chars)` draws from `string.ascii_uppercase + string.digits`
(36 characters).  The random source is an oracle giving the index of each drawn
character; iteration `i` of the `while` loop consumes indices `12*i .. 12*i+11`.
The unbounded `while True` retry loop is given explicit fuel; the theorems are
conditional on the loop having found a fresh token. -/

def tokenChars : List Char :=
  "ABCDEFGHIJKLMNOPQRSTUVWXYZ0123456789".data

theorem tokenChars_length : tokenChars.length = 36 := rfl

def pickChar (oracle : Nat → Fin 36) (n : Nat) : Char :=
  tokenChars.get (Fin.cast tokenChars_length.symm (oracle n))

/-- One 4-character group of candidate number `iter` (`g` = 0, 1, 2). -/
def tokenGroup (oracle : Nat → Fin 36) (iter g : Nat) : List Char :=
  (List.range 4).map (fun j => pickChar oracle (12 * iter + 4 * g + j))

/-- The candidate `'-'.join(parts)` built in iteration `iter` of the while loop. -/
def candidate (oracle : Nat → Fin 36) (iter : Nat) : String :=
  String.mk (tokenGroup oracle iter 0 ++ '-' :: tokenGroup oracle iter 1 ++
    '-' :: tokenGroup oracle iter 2)

/-- The while loop: try candidates until one is not in `self._data["keys"]`. -/
def genLoop (oracle : Nat → Fin 36) (keys : List (String × KeyData)) :
    Nat → Nat → Option String
  | 0, _ => none
  | fuel + 1, iter =>
    let c := candidate oracle iter
    if alookup keys c = none then some c else genLoop oracle keys fuel (iter + 1)

/-- `Storage.generate_key()`: draw a fresh token, store it with
`activated_by`, `activated_by_username` and `activated_at` all `None`, and
return it.  `none` means the fuel ran out before a fresh draw. -/
def generate_key (oracle : Nat → Fin 36) (fuel : Nat) (now : String)
    (s : StorageData) : Option (String × StorageData) :=
  match genLoop oracle s.keys fuel 0 with
  | none => none
  | some tok =>
    some (tok,
      { s with
        keys := s.keys ++
          [(tok,
            { created_at := now, activated_by := none
              activated_by_username := none, activated_at := none })] })

/-- The fixed lexical token format: three 4-character groups of characters from
`string.ascii_uppercase + string.digits`, separated by single dashes. -/
def isTokenChar (c : Char) : Bool :=
  tokenChars.contains c

def isValidToken (t : String) : Bool :=
  match t.data with
  | [a1, a2, a3, a4, d1, b1, b2, b3, b4, d2, c1, c2, c3, c4] =>
    d1 = '-' && d2 = '-' &&
      ([a1, a2, a3, a4, b1, b2, b3, b4, c1, c2, c3, c4].all isTokenChar)
  | _ => false

theorem isTokenChar_iff_mem {c : Char} : isTokenChar c = true ↔ c ∈ tokenChars := by
  simp [isTokenChar, List.contains_iff_exists_mem_beq, beq_iff_eq]

theorem isTokenChar_pickChar (oracle : Nat → Fin 36) (n : Nat) :
    isTokenChar (pickChar oracle n) = true :=
  isTokenChar_iff_mem.mpr (List.get_mem _ _ _)

theorem toUpper_eq_of_isTokenChar {c : Char} (h : isTokenChar c = true) :
    Char.toUpper c = c := by
  have hmem : c ∈ tokenChars := isTokenChar_iff_mem.mp h
  fin_cases hmem <;> decide

theorem isValidToken_candidate (oracle : Nat → Fin 36) (iter : Nat) :
    isValidToken (candidate oracle iter) = true := by
  have h : ∀ m, isTokenChar (pickChar oracle m) = true := isTokenChar_pickChar oracle
  simp [candidate, tokenGroup, List.range_succ, isValidToken, h]

theorem genLoop_spec (oracle : Nat → Fin 36) (keys : List (String × KeyData)) :
    ∀ fuel iter tok, genLoop oracle keys fuel iter = some tok →
      isValidToken tok = true ∧ alookup keys tok = none := by
  intro fuel
  induction fuel with
  | zero => intro iter tok h; simp [genLoop] at h
  | succ n ih =>
    intro iter tok h
    simp only [genLoop] at h
    by_cases hc : alookup keys (candidate oracle iter) = none
    · simp only [hc, if_pos] at h
      cases Option.some.inj h
      exact ⟨isValidToken_candidate oracle iter, hc⟩
    · simp only [hc, if_neg, ite_false] at h
      exact ih (iter + 1) tok h

/-! ## Facts about `activate_key` -/

/-- On the success path `activate_key` persists the activation:
the key record is updated in place, a user record is appended. -/
theorem activate_key_success_eq (s : StorageData) (key : String) (uid : Int)
    (un : Option String) (now : String) (kd : KeyData)
    (hkey : alookup s.keys key = some kd) (hab : kd.activated_by = none)
    (hu : alookup s.users (toString uid) = none) :
    activate_key s key uid un now =
      (true,
        { s with
          keys := aset s.keys key
            { kd with
              activated_by := some uid
              activated_by_username := un
              activated_at := some now }
          users := s.users ++
            [(toString uid,
              { user_id := uid, username := un, key_used := key
                activated_at := now })] }) := by
  simp [activate_key, hkey, hab, hu]

/-- Any failed precondition leaves the store untouched and returns `False`. -/
theorem activate_key_failure_eq (s : StorageData) (key : String) (uid : Int)
    (un : Option String) (now : String)
    (h : ¬((∃ kd, alookup s.keys key = some kd ∧ kd.activated_by = none) ∧
        alookup s.users (toString uid) = none)) :
    activate_key s key uid un now = (false, s) := by
  match hkey : alookup s.keys key with
  | none => simp [activate_key, hkey]
  | some kd =>
    match hab : kd.activated_by with
    | some u0 => simp [activate_key, hkey, hab]
    | none =>
      match hu : alookup s.users (toString uid) with
      | some ur => simp [activate_key, hkey, hab, hu]
      | none => exact absurd ⟨⟨kd, hkey, hab⟩, hu⟩ h

theorem activate_key_true_elim (s : StorageData) (key : String) (uid : Int)
    (un : Option String) (now : String)
    (h : (activate_key s key uid un now).1 = true) :
    (∃ kd, alookup s.keys key = some kd ∧ kd.activated_by = none) ∧
      alookup s.users (toString uid) = none := by
  by_contra hc
  rw [activate_key_failure_eq s key uid un now hc] at h
  simp at h

/-- Claim C1: `activate_key(token, user_id, name)` returns `True` and persists the
activation exactly when the token is stored, its `activated_by` is null and
`str(user_id)` has no user record; every failing call returns `False` and leaves
the store unchanged.  In particular a second activation of the same token (by
anybody) fails with `activated_by` still the first activator, and a second
activation by the same user with any other token fails without mutation. -/
theorem C1_activate_key_contract (s : StorageData) (key : String) (uid : Int)
    (un : Option String) (now : String) :
    ((activate_key s key uid un now).1 = true ↔
      ((∃ kd, alookup s.keys key = some kd ∧ kd.activated_by = none) ∧
        alookup s.users (toString uid) = none)) ∧
    ((activate_key s key uid un now).1 = false →
      (activate_key s key uid un now).2 = s) ∧
    ((activate_key s key uid un now).1 = true →
      ∀ u2 un2 now2,
        (activate_key (activate_key s key uid un now).2 key u2 un2 now2).1 = false ∧
        (activate_key (activate_key s key uid un now).2 key u2 un2 now2).2 =
          (activate_key s key uid un now).2 ∧
        ∃ kd2, alookup (activate_key s key uid un now).2.keys key = some kd2 ∧
          kd2.activated_by = some uid) ∧
    ((activate_key s key uid un now).1 = true →
      ∀ key2 un2 now2,
        (activate_key (activate_key s key uid un now).2 key2 uid un2 now2).1 = false ∧
        (activate_key (activate_key s key uid un now).2 key2 uid un2 now2).2 =
          (activate_key s key uid un now).2) := by
  refine ⟨⟨activate_key_true_elim s key uid un now, ?_⟩, ?_, ?_, ?_⟩
  · rintro ⟨⟨kd, hkey, hab⟩, hu⟩
    rw [activate_key_success_eq s key uid un now kd hkey hab hu]
  · intro hfalse
    by_cases hc : (∃ kd, alookup s.keys key = some kd ∧ kd.activated_by = none) ∧
        alookup s.users (toString uid) = none
    · obtain ⟨⟨kd, hkey, hab⟩, hu⟩ := hc
      rw [activate_key_success_eq s key uid un now kd hkey hab hu] at hfalse
      simp at hfalse
    · rw [activate_key_failure_eq s key uid un now hc]
  · intro htrue u2 un2 now2
    obtain ⟨⟨kd, hkey, hab⟩, hu⟩ := activate_key_true_elim s key uid un now htrue
    rw [activate_key_success_eq s key uid un now kd hkey hab hu]
    have hkey2 : alookup
        (aset s.keys key
          { kd with
            activated_by := some uid
            activated_by_username := un
            activated_at := some now }) key =
        some { kd with
          activated_by := some uid
          activated_by_username := un
          activated_at := some now } :=
      alookup_aset_self _ hkey
    constructor
    · simp [activate_key, hkey2]
    constructor
    · simp [activate_key, hkey2]
    · exact ⟨_, hkey2, rfl⟩
  · intro htrue key2 un2 now2
    obtain ⟨⟨kd, hkey, hab⟩, hu⟩ := activate_key_true_elim s key uid un now htrue
    rw [activate_key_success_eq s key uid un now kd hkey hab hu]
    have hu2 : alookup
        (s.users ++
          [(toString uid,
            { user_id := uid, username := un, key_used := key
              activated_at := now })]) (toString uid) =
        some { user_id := uid, username := un, key_used := key, activated_at := now } := by
      rw [alookup_append_right _ hu]
      simp [alookup]
    refine ⟨?_, ?_⟩ <;>
      · match hkey2 : alookup (aset s.keys key
            { kd with
              activated_by := some uid
              activated_by_username := un
              activated_at := some now }) key2 with
        | none => simp [activate_key, hkey2]
        | some kd2 =>
          by_cases hab2 : kd2.activated_by.isSome
          · simp [activate_key, hkey2, hab2]
          · simp [activate_key, hkey2, hab2, hu2]

/-- Witness for C1 at a concrete store: one unused stored token, user 5 activates. -/
theorem C1_activate_key_contract_witness :
    (activate_key
      { admin_id := 999
        keys := [("AAAA-AAAA-AAAA",
          { created_at := "t0", activated_by := none
            activated_by_username := none, activated_at := none })]
        users := [] } "AAAA-AAAA-AAAA" 5 none "t1").1 = true :=
  (C1_activate_key_contract _ "AAAA-AAAA-AAAA" 5 none "t1").1.mpr
    ⟨⟨{ created_at := "t0", activated_by := none
        activated_by_username := none, activated_at := none }, rfl, rfl⟩, rfl⟩

/-- Claim C10: `activate_key` does not special-case the configured admin:
with an existing unused token and no user record for `admin_id`, the call
succeeds, marks the key used by the admin and appends the admin's user record. -/
theorem C10_admin_can_activate (s : StorageData) (key : String)
    (un : Option String) (now : String) (kd : KeyData)
    (hkey : alookup s.keys key = some kd) (hab : kd.activated_by = none)
    (hu : alookup s.users (toString s.admin_id) = none) :
    (activate_key s key s.admin_id un now).1 = true ∧
    alookup (activate_key s key s.admin_id un now).2.keys key =
      some { kd with
        activated_by := some s.admin_id
        activated_by_username := un
        activated_at := some now } ∧
    alookup (activate_key s key s.admin_id un now).2.users (toString s.admin_id) =
      some { user_id := s.admin_id, username := un, key_used := key,
             activated_at := now } ∧
    is_admin s s.admin_id = true := by
  rw [activate_key_success_eq s key s.admin_id un now kd hkey hab hu]
  refine ⟨rfl, alookup_aset_self _ hkey, ?_, by simp [is_admin]⟩
  rw [alookup_append_right _ hu]
  simp [alookup]

/-- Witness for C10: the admin (id 999) consumes an invitation key. -/
theorem C10_admin_can_activate_witness :
    (activate_key
      { admin_id := 999
        keys := [("AAAA-AAAA-AAAA",
          { created_at := "t0", activated_by := none
            activated_by_username := none, activated_at := none })]
        users := [] } "AAAA-AAAA-AAAA" 999 none "t1").1 = true :=
  (C10_admin_can_activate
    { admin_id := 999
      keys := [("AAAA-AAAA-AAAA",
        { created_at := "t0", activated_by := none
          activated_by_username := none, activated_at := none })]
      users := [] } "AAAA-AAAA-AAAA" none "t1"
    { created_at := "t0", activated_by := none
      activated_by_username := none, activated_at := none }
    (by simp [alookup]) rfl (by simp [alookup])).1

/-! ## `delete_key` (claim C7) -/

/-- An unused key and its activation by user id 0, both reachable states. -/
def c7start : StorageData :=
  { admin_id := 999
    keys := [("AAAA-AAAA-AAAA",
      { created_at := "t0", activated_by := none
        activated_by_username := none, activated_at := none })]
    users := [] }

def c7mid : StorageData :=
  (activate_key c7start "AAAA-AAAA-AAAA" 0 none "t1").2

/-- Counterexample to claim C7 as stated: a key activated by user id 0 (a value
`activate_key` accepts) is deleted — `delete_key` returns `True` and removes the
key, but the guard `if key_data.get("activated_by"):` is falsy for 0, so the
AuthorizedUser record survives and `is_authorized(0)` stays `True`. -/
theorem C7_counterexample :
    (activate_key c7start "AAAA-AAAA-AAAA" 0 none "t1").1 = true ∧
    (delete_key c7mid "AAAA-AAAA-AAAA").1 = true ∧
    alookup (delete_key c7mid "AAAA-AAAA-AAAA").2.keys "AAAA-AAAA-AAAA" = none ∧
    alookup (delete_key c7mid "AAAA-AAAA-AAAA").2.users "0" =
      some { user_id := 0, username := none, key_used := "AAAA-AAAA-AAAA",
             activated_at := "t1" } ∧
    is_authorized (delete_key c7mid "AAAA-AAAA-AAAA").2 0 = true :=
  ⟨rfl, rfl, rfl, rfl, rfl⟩

/-- Claim C7 (amended): `delete_key` of an unknown token returns `False` without
mutation; of a stored token it removes the key and returns `True`, and if the
key was activated by a nonzero user id the associated user record is also
removed, so `is_authorized` for that (non-admin) user becomes `False`. -/
theorem C7_delete_key_contract (s : StorageData) (tok : String) :
    (alookup s.keys tok = none → delete_key s tok = (false, s)) ∧
    (∀ kd, alookup s.keys tok = some kd →
      (delete_key s tok).1 = true ∧
      alookup (delete_key s tok).2.keys tok = none ∧
      (∀ u, kd.activated_by = some u → u ≠ 0 →
        alookup (delete_key s tok).2.users (toString u) = none ∧
        (u ≠ s.admin_id → is_authorized (delete_key s tok).2 u = false))) := by
  constructor
  · intro h
    simp [delete_key, h]
  · intro kd hkd
    refine ⟨by simp [delete_key, hkd], ?_, ?_⟩
    · simp only [delete_key, hkd]
      exact alookup_aremove_self _ _
    · intro u hu hu0
      have husers : (delete_key s tok).2.users = aremove s.users (toString u) := by
        simp [delete_key, hkd, hu, hu0]
      have hnone : alookup (delete_key s tok).2.users (toString u) = none := by
        rw [husers]
        exact alookup_aremove_self _ _
      refine ⟨hnone, ?_⟩
      intro hadmin
      have hadmin2 : (delete_key s tok).2.admin_id = s.admin_id := by
        simp [delete_key, hkd]
      simp [is_authorized, hadmin2, hadmin, hnone]

/-- Witness for C7: deleting a key activated by user 5 removes key and user,
and user 5 is no longer authorized. -/
theorem C7_delete_key_contract_witness :
    (delete_key
      { admin_id := 999
        keys := [("AAAA-AAAA-AAAA",
          { created_at := "t0", activated_by := some 5
            activated_by_username := none, activated_at := some "t1" })]
        users := [("5",
          { user_id := 5, username := none, key_used := "AAAA-AAAA-AAAA",
            activated_at := "t1" })] } "AAAA-AAAA-AAAA").1 = true ∧
    is_authorized
      (delete_key
        { admin_id := 999
          keys := [("AAAA-AAAA-AAAA",
            { created_at := "t0", activated_by := some 5
              activated_by_username := none, activated_at := some "t1" })]
          users := [("5",
            { user_id := 5, username := none, key_used := "AAAA-AAAA-AAAA",
              activated_at := "t1" })] } "AAAA-AAAA-AAAA").2 5 = false := by
  have h := (C7_delete_key_contract
    { admin_id := 999
      keys := [("AAAA-AAAA-AAAA",
        { created_at := "t0", activated_by := some 5
          activated_by_username := none, activated_at := some "t1" })]
      users := [("5",
        { user_id := 5, username := none, key_used := "AAAA-AAAA-AAAA",
          activated_at := "t1" })] } "AAAA-AAAA-AAAA").2
    { created_at := "t0", activated_by := some 5
      activated_by_username := none, activated_at := some "t1" } rfl
  exact ⟨h.1, (h.2.2 5 rfl (by decide)).2 (by decide)⟩

/-! ## Key listing order (claim C6) -/

/-- A store holding one unused key (created first) and one used key (created
second), plus the used key's activator. -/
def c6Store : StorageData :=
  { admin_id := 999
    keys := [("AAAA-AAAA-AAAA",
      { created_at := "2024-01-01T10:00:00", activated_by := none
        activated_by_username := none, activated_at := none }),
      ("BBBB-BBBB-BBBB",
      { created_at := "2024-01-02T10:00:00", activated_by := some 5
        activated_by_username := some "u", activated_at := some "2024-01-03T10:00:00" })]
    users := [("5",
      { user_id := 5, username := some "u", key_used := "BBBB-BBBB-BBBB",
        activated_at := "2024-01-03T10:00:00" })] }

/-- Claim C6 evaluation at the failing input: `get_all_keys` sorts with
`reverse=True` on `(is_used, created_at)`, so the *used* key comes first —
contradicting both the claim and the source's own comment
("Сортируем: сначала неиспользованные"). -/
theorem C6_get_all_keys_used_first :
    (get_all_keys c6Store).map AccessKey.is_used = [true, false] ∧
    (get_all_keys c6Store).map AccessKey.key =
      ["BBBB-BBBB-BBBB", "AAAA-AAAA-AAAA"] :=
  ⟨rfl, rfl⟩

/-! ## Key generation contract (claim C8) -/

/-- What a successful `generate_key` does: fresh well-formed token, appended
with null activation fields, everything else untouched. -/
theorem generate_key_spec (oracle : Nat → Fin 36) (fuel : Nat)
    (now : String) (s : StorageData) (tok : String) (s2 : StorageData)
    (h : generate_key oracle fuel now s = some (tok, s2)) :
    isValidToken tok = true ∧
    alookup s.keys tok = none ∧
    s2.keys = s.keys ++
      [(tok, { created_at := now, activated_by := none
               activated_by_username := none, activated_at := none })] ∧
    s2.users = s.users ∧
    s2.admin_id = s.admin_id ∧
    ((s.keys.map Prod.fst).Nodup → (s2.keys.map Prod.fst).Nodup) := by
  unfold generate_key at h
  match hg : genLoop oracle s.keys fuel 0 with
  | none => rw [hg] at h; simp at h
  | some tok0 =>
    rw [hg] at h
    obtain ⟨htok, hs2⟩ := Prod.mk.injEq .. ▸ Option.some.inj h
    obtain ⟨hvalid, hfresh⟩ := genLoop_spec oracle s.keys fuel 0 tok0 hg
    subst htok
    refine ⟨hvalid, hfresh, by rw [← hs2], by rw [← hs2], by rw [← hs2], ?_⟩
    intro hnodup
    rw [← hs2]
    simp only [List.map_append, List.map_cons, List.map_nil]
    rw [List.nodup_append]
    refine ⟨hnodup, List.nodup_singleton _, ?_⟩
    intro a ha hb
    simp only [List.mem_singleton] at hb
    subst hb
    exact (alookup_eq_none_iff.mp hfresh) ha

/-- Claim C8: every token returned by `generate_key` matches the fixed
`XXXX-XXXX-XXXX` format over uppercase letters and digits, is fresh with
respect to the stored keys (so successive calls keep the stored token set
duplicate-free), and is stored with `activated_by`, `activated_by_username`
and `activated_at` all null. -/
theorem C8_generate_key_contract (oracle : Nat → Fin 36) (fuel : Nat)
    (now : String) (s : StorageData) (tok : String) (s2 : StorageData)
    (h : generate_key oracle fuel now s = some (tok, s2)) :
    isValidToken tok = true ∧
    alookup s.keys tok = none ∧
    s2.keys = s.keys ++
      [(tok, { created_at := now, activated_by := none
               activated_by_username := none, activated_at := none })] ∧
    s2.users = s.users ∧
    s2.admin_id = s.admin_id ∧
    ((s.keys.map Prod.fst).Nodup → (s2.keys.map Prod.fst).Nodup) :=
  generate_key_spec oracle fuel now s tok s2 h

/-- Witness for C8 at a concrete oracle: the all-zeros draw yields
`AAAA-AAAA-AAAA`, fresh in the empty store. -/
theorem C8_generate_key_contract_witness :
    isValidToken "AAAA-AAAA-AAAA" = true ∧
    alookup (emptyStore 999).keys "AAAA-AAAA-AAAA" = none :=
  have h := C8_generate_key_contract (fun _ => (0 : Fin 36)) 1 "t0" (emptyStore 999)
    "AAAA-AAAA-AAAA"
    { admin_id := 999
      keys := [("AAAA-AAAA-AAAA",
        { created_at := "t0", activated_by := none
          activated_by_username := none, activated_at := none })]
      users := [] } rfl
  ⟨h.1, h.2.1⟩

/-! ## Token matching and the key-input handler (claim C9)

`Storage` matches tokens by exact dict lookup.  Case-insensitivity exists only
in `process_key_input` (`app/handlers/homework.py`), which runs
`message.text.strip().upper()` before calling `activate_key`.  `str.upper()` is
modelled on the basic latin range via `Char.toUpper`, which covers the token
alphabet; Python's `str.strip()` removes leading/trailing whitespace. -/

def isPySpace (c : Char) : Bool :=
  c = ' ' || c = '\t' || c = '\n' || c = '\r' || c = Char.ofNat 11 || c = Char.ofNat 12

def pyStrip (t : String) : String :=
  String.mk (((t.data.dropWhile isPySpace).reverse.dropWhile isPySpace).reverse)

def pyUpper (t : String) : String :=
  String.mk (t.data.map Char.toUpper)

/-- The key-activation step of `process_key_input`:
`key = message.text.strip().upper()` followed by `storage.activate_key(...)`. -/
def process_key_input (s : StorageData) (text : String) (user_id : Int)
    (username : Option String) (now : String) : Bool × StorageData :=
  activate_key s (pyUpper (pyStrip text)) user_id username now

/-- Two strings differing only in (basic latin) letter case. -/
def caseVariant (a b : String) : Bool :=
  a.data.map Char.toUpper == b.data.map Char.toUpper

theorem map_toUpper_of_valid {t : String} (h : isValidToken t = true) :
    t.data.map Char.toUpper = t.data := by
  unfold isValidToken at h
  split at h
  next a1 a2 a3 a4 d1 b1 b2 b3 b4 d2 c1 c2 c3 c4 heq =>
    rw [heq]
    simp only [Bool.and_eq_true, decide_eq_true_eq, List.all_eq_true] at h
    obtain ⟨⟨h1, h2⟩, hall⟩ := h
    subst h1
    subst h2
    have hu : Char.toUpper '-' = '-' := by decide
    have f1 := toUpper_eq_of_isTokenChar (hall a1 (by simp))
    have f2 := toUpper_eq_of_isTokenChar (hall a2 (by simp))
    have f3 := toUpper_eq_of_isTokenChar (hall a3 (by simp))
    have f4 := toUpper_eq_of_isTokenChar (hall a4 (by simp))
    have f5 := toUpper_eq_of_isTokenChar (hall b1 (by simp))
    have f6 := toUpper_eq_of_isTokenChar (hall b2 (by simp))
    have f7 := toUpper_eq_of_isTokenChar (hall b3 (by simp))
    have f8 := toUpper_eq_of_isTokenChar (hall b4 (by simp))
    have f9 := toUpper_eq_of_isTokenChar (hall c1 (by simp))
    have f10 := toUpper_eq_of_isTokenChar (hall c2 (by simp))
    have f11 := toUpper_eq_of_isTokenChar (hall c3 (by simp))
    have f12 := toUpper_eq_of_isTokenChar (hall c4 (by simp))
    simp [hu, f1, f2, f3, f4, f5, f6, f7, f8, f9, f10, f11, f12]
  next =>
    exact absurd h (by simp)

/-- A store with one stored (uppercase-format) token, used to refute C9 as
stated at the `Storage` level. -/
def c9Store : StorageData :=
  { admin_id := 999
    keys := [("AAAA-AAAA-AAAA",
      { created_at := "t0", activated_by := none
        activated_by_username := none, activated_at := none })]
    users := [] }

/-- Counterexample to claim C9 as stated: `Storage.activate_key` and
`Storage.delete_key` match tokens by exact dict lookup, so the lowercase
variant of a stored token fails with no mutation even though the token is
stored. -/
theorem C9_counterexample :
    (activate_key c9Store "aaaa-aaaa-aaaa" 5 none "t1").1 = false ∧
    (activate_key c9Store "aaaa-aaaa-aaaa" 5 none "t1").2 = c9Store ∧
    (delete_key c9Store "aaaa-aaaa-aaaa").1 = false ∧
    (alookup c9Store.keys "AAAA-AAAA-AAAA").isSome = true :=
  ⟨rfl, rfl, rfl, rfl⟩

/-- Claim C9 (amended): case-insensitive token matching is provided by the
key-input handler, not by `Storage`: the handler trims and uppercases the
input, and stored tokens have the uppercase format, so input differing from a
stored valid token only in letter case operates on exactly that key;
`delete_key` itself matches exactly (an unknown case variant fails). -/
theorem C9_handler_case_insensitive (s : StorageData) (t input : String)
    (uid : Int) (un : Option String) (now : String)
    (hvalid : isValidToken t = true)
    (hvar : caseVariant (pyStrip input) t = true) :
    process_key_input s input uid un now = activate_key s t uid un now ∧
    (∀ k, alookup s.keys k = none → delete_key s k = (false, s)) := by
  constructor
  · have hup : pyUpper (pyStrip input) = t := by
      unfold caseVariant at hvar
      have he : (pyStrip input).data.map Char.toUpper = t.data.map Char.toUpper :=
        beq_iff_eq.mp hvar
      unfold pyUpper
      rw [he, map_toUpper_of_valid hvalid]
    unfold process_key_input
    rw [hup]
  · intro k hk
    simp [delete_key, hk]

/-- Witness for C9: lowercase input with surrounding whitespace activates the
stored uppercase token. -/
theorem C9_handler_case_insensitive_witness :
    process_key_input c9Store "  aAaa-aaAA-aaaa " 5 none "t1" =
      activate_key c9Store "AAAA-AAAA-AAAA" 5 none "t1" ∧
    (process_key_input c9Store "  aAaa-aaAA-aaaa " 5 none "t1").1 = true :=
  have h := C9_handler_case_insensitive c9Store "AAAA-AAAA-AAAA"
    "  aAaa-aaAA-aaaa " 5 none "t1" rfl rfl
  ⟨h.1, by rw [h.1]; rfl⟩

/-! ## Reachable store states (claim C2)

A store is reachable when it arises from the empty store by a sequence of
`generate_key` / `activate_key` / `delete_key` calls. -/

inductive Op where
  | gen (oracle : Nat → Fin 36) (fuel : Nat) (now : String)
  | act (key : String) (user_id : Int) (username : Option String) (now : String)
  | del (key : String)

def applyOp (s : StorageData) : Op → StorageData
  | .gen oracle fuel now =>
    match generate_key oracle fuel now s with
    | none => s
    | some (_, s2) => s2
  | .act key uid un now => (activate_key s key uid un now).2
  | .del key => (delete_key s key).2

def runOps (s : StorageData) (ops : List Op) : StorageData :=
  ops.foldl applyOp s

/-- Activations carried out with a nonzero user id (Telegram ids are positive;
`0` is the placeholder the handlers use for a missing sender). -/
def opNonzeroUser : Op → Prop
  | .act _ uid _ _ => uid ≠ 0
  | _ => True

/-- The inductive invariant of the store. -/
structure StoreInv (s : StorageData) : Prop where
  keysNodup : (s.keys.map Prod.fst).Nodup
  usersNodup : (s.users.map Prod.fst).Nodup
  usersKeyStr : ∀ p ∈ s.users, p.1 = toString p.2.user_id
  bothNull : ∀ p ∈ s.keys, (p.2.activated_by = none ↔ p.2.activated_at = none)
  nonzeroAct : ∀ p ∈ s.keys, p.2.activated_by ≠ some 0
  usersLink : ∀ p ∈ s.users, ∃ kd, alookup s.keys p.2.key_used = some kd ∧
    kd.activated_by = some p.2.user_id

theorem storeInv_empty (admin : Int) : StoreInv (emptyStore admin) := by
  refine ⟨by simp [emptyStore], by simp [emptyStore], ?_, ?_, ?_, ?_⟩ <;>
    · intro p hp
      simp [emptyStore] at hp

theorem storeInv_gen (s : StorageData) (oracle : Nat → Fin 36) (fuel : Nat)
    (now : String) (h : StoreInv s) : StoreInv (applyOp s (.gen oracle fuel now)) := by
  simp only [applyOp]
  match hg : generate_key oracle fuel now s with
  | none => exact h
  | some (tok, s2) =>
    show StoreInv s2
    obtain ⟨hvalid, hfresh, hkeys, husers, hadmin, hnodup⟩ :=
      generate_key_spec oracle fuel now s tok s2 hg
    refine ⟨hnodup h.keysNodup, ?_, ?_, ?_, ?_, ?_⟩
    · rw [husers]
      exact h.usersNodup
    · rw [husers]
      exact h.usersKeyStr
    · intro p hp
      rw [hkeys] at hp
      rcases List.mem_append.mp hp with hp1 | hp1
      · exact h.bothNull p hp1
      · simp only [List.mem_singleton] at hp1
        subst hp1
        simp
    · intro p hp
      rw [hkeys] at hp
      rcases List.mem_append.mp hp with hp1 | hp1
      · exact h.nonzeroAct p hp1
      · simp only [List.mem_singleton] at hp1
        subst hp1
        simp
    · intro p hp
      rw [husers] at hp
      obtain ⟨kd, hlk, hact⟩ := h.usersLink p hp
      refine ⟨kd, ?_, hact⟩
      rw [hkeys]
      exact alookup_append_left hlk

theorem storeInv_act (s : StorageData) (key : String) (uid : Int)
    (un : Option String) (now : String) (huid : uid ≠ 0) (h : StoreInv s) :
    StoreInv (applyOp s (.act key uid un now)) := by
  show StoreInv (activate_key s key uid un now).2
  by_cases hc : (∃ kd, alookup s.keys key = some kd ∧ kd.activated_by = none) ∧
      alookup s.users (toString uid) = none
  case neg =>
    rw [activate_key_failure_eq s key uid un now hc]
    exact h
  obtain ⟨⟨kd, hkey, hab⟩, hu⟩ := hc
  rw [activate_key_success_eq s key uid un now kd hkey hab hu]
  refine ⟨?_, ?_, ?_, ?_, ?_, ?_⟩
  · show ((aset s.keys key _).map Prod.fst).Nodup
    rw [map_fst_aset]
    exact h.keysNodup
  · show ((s.users ++ _).map Prod.fst).Nodup
    rw [List.map_append]
    rw [List.nodup_append]
    refine ⟨h.usersNodup, by simp, ?_⟩
    intro a ha hb
    simp only [List.map_cons, List.map_nil, List.mem_singleton] at hb
    subst hb
    exact (alookup_eq_none_iff.mp hu) ha
  · intro p hp
    rcases List.mem_append.mp hp with hp1 | hp1
    · exact h.usersKeyStr p hp1
    · simp only [List.mem_singleton] at hp1
      subst hp1
      rfl
  · intro p hp
    rcases mem_aset hp with hp1 | hp1
    · subst hp1
      simp
    · exact h.bothNull p hp1.1
  · intro p hp
    rcases mem_aset hp with hp1 | hp1
    · subst hp1
      simp only [ne_eq, Option.some.injEq]
      exact huid
    · exact h.nonzeroAct p hp1.1
  · intro p hp
    rcases List.mem_append.mp hp with hp1 | hp1
    · obtain ⟨kd0, hlk, hact⟩ := h.usersLink p hp1
      have hne : p.2.key_used ≠ key := by
        intro heq
        rw [heq, hkey] at hlk
        rw [Option.some.inj hlk] at hab
        rw [hab] at hact
        exact Option.noConfusion hact
      exact ⟨kd0, by rw [alookup_aset_ne hne]; exact hlk, hact⟩
    · simp only [List.mem_singleton] at hp1
      subst hp1
      exact ⟨_, alookup_aset_self _ hkey, rfl⟩

theorem storeInv_del (s : StorageData) (key : String) (h : StoreInv s) :
    StoreInv (applyOp s (.del key)) := by
  show StoreInv (delete_key s key).2
  match hkd : alookup s.keys key with
  | none =>
    simp only [delete_key, hkd]
    exact h
  | some kd =>
    have hmemkd : (key, kd) ∈ s.keys := alookup_mem hkd
    have hkeys2 : (delete_key s key).2.keys = aremove s.keys key := by
      simp [delete_key, hkd]
    have hbase : ∀ p, p ∈ (delete_key s key).2.users → p ∈ s.users := by
      intro p hp
      simp only [delete_key, hkd] at hp
      split at hp
      · split at hp
        · exact hp
        · exact (mem_of_mem_aremove hp).1
      · exact hp
    have husers2 : ∀ u, kd.activated_by = some u → u ≠ 0 →
        (delete_key s key).2.users = aremove s.users (toString u) := by
      intro u hab hu0
      simp [delete_key, hkd, hab, hu0]
    refine ⟨?_, ?_, ?_, ?_, ?_, ?_⟩
    · rw [hkeys2]
      exact nodup_map_fst_aremove h.keysNodup
    · simp only [delete_key, hkd]
      split
      · split
        · exact h.usersNodup
        · exact nodup_map_fst_aremove h.usersNodup
      · exact h.usersNodup
    · intro p hp
      exact h.usersKeyStr p (hbase p hp)
    · intro p hp
      rw [hkeys2] at hp
      exact h.bothNull p (mem_of_mem_aremove hp).1
    · intro p hp
      rw [hkeys2] at hp
      exact h.nonzeroAct p (mem_of_mem_aremove hp).1
    · intro p hp
      obtain ⟨kd0, hlk, hact⟩ := h.usersLink p (hbase p hp)
      have hne : p.2.key_used ≠ key := by
        intro heq
        rw [heq, hkd] at hlk
        have hkk : kd = kd0 := Option.some.inj hlk
        rw [← hkk] at hact
        -- kd.activated_by = some p.2.user_id, so the deleted key was activated by p
        have hu0 : p.2.user_id ≠ 0 := by
          intro hz
          apply h.nonzeroAct (key, kd) hmemkd
          rw [hact, hz]
        -- p survives the delete, but the delete removed exactly p's dict slot
        have hp2 : p ∈ aremove s.users (toString p.2.user_id) := by
          rw [← husers2 p.2.user_id hact hu0]
          exact hp
        have := (mem_of_mem_aremove hp2).2
        exact this (h.usersKeyStr p (hbase p hp))
      refine ⟨kd0, ?_, hact⟩
      rw [hkeys2, alookup_aremove_ne hne]
      exact hlk

theorem storeInv_runOps : ∀ (ops : List Op) (s : StorageData), StoreInv s →
    (∀ op ∈ ops, opNonzeroUser op) → StoreInv (runOps s ops) := by
  intro ops
  induction ops with
  | nil => intro s hs _; exact hs
  | cons op rest ih =>
    intro s hs hops
    have h1 : StoreInv (applyOp s op) := by
      match op with
      | .gen oracle fuel now => exact storeInv_gen s oracle fuel now hs
      | .act key uid un now =>
        exact storeInv_act s key uid un now (hops _ (List.mem_cons_self _ _)) hs
      | .del key => exact storeInv_del s key hs
    exact ih (applyOp s op) h1 (fun op2 hm => hops op2 (List.mem_cons_of_mem _ hm))

theorem nodup_fst_eq {α : Type} : ∀ (l : List (String × α)),
    (l.map Prod.fst).Nodup → ∀ p q, p ∈ l → q ∈ l → p.1 = q.1 → p = q := by
  intro l
  induction l with
  | nil => intro _ p q hp; exact absurd hp (List.not_mem_nil p)
  | cons x rest ih =>
    intro h p q hp hq he
    rw [List.map_cons, List.nodup_cons] at h
    obtain ⟨hx, hrest⟩ := h
    rcases List.mem_cons.mp hp with rfl | hp2
    · rcases List.mem_cons.mp hq with rfl | hq2
      · rfl
      · exact absurd (by rw [he]; exact List.mem_map_of_mem _ hq2) hx
    · rcases List.mem_cons.mp hq with rfl | hq2
      · exact absurd (by rw [← he]; exact List.mem_map_of_mem _ hp2) hx
      · exact ih hrest p q hp2 hq2 he

/-- `activated_by`, once set, survives any single further operation on a key
that still exists afterwards. -/
theorem activated_by_stable (s : StorageData) (op : Op) (k : String)
    (kd kd2 : KeyData) (u : Int) (hk : alookup s.keys k = some kd)
    (hab : kd.activated_by = some u)
    (hk2 : alookup (applyOp s op).keys k = some kd2) :
    kd2.activated_by = some u := by
  match op with
  | .gen oracle fuel now =>
    simp only [applyOp] at hk2
    match hg : generate_key oracle fuel now s with
    | none =>
      rw [hg] at hk2
      have hk2b : alookup s.keys k = some kd2 := hk2
      have he : kd = kd2 := Option.some.inj (hk.symm.trans hk2b)
      rw [← he]
      exact hab
    | some (tok, s2) =>
      rw [hg] at hk2
      have hk2b : alookup s2.keys k = some kd2 := hk2
      obtain ⟨_, _, hkeys, _, _, _⟩ := generate_key_spec oracle fuel now s tok s2 hg
      rw [hkeys, alookup_append_left hk] at hk2b
      have he : kd = kd2 := Option.some.inj hk2b
      rw [← he]
      exact hab
  | .act key uid un now =>
    show kd2.activated_by = some u
    by_cases hc : (∃ kd3, alookup s.keys key = some kd3 ∧ kd3.activated_by = none) ∧
        alookup s.users (toString uid) = none
    case neg =>
      have hsame : (applyOp s (.act key uid un now)) = s := by
        show (activate_key s key uid un now).2 = s
        rw [activate_key_failure_eq s key uid un now hc]
      rw [hsame] at hk2
      have he : kd = kd2 := Option.some.inj (hk.symm.trans hk2)
      rw [← he]
      exact hab
    obtain ⟨⟨kd3, hkey, hab3⟩, hu⟩ := hc
    have hne : k ≠ key := by
      intro heq
      rw [heq, hkey] at hk
      have he3 : kd3 = kd := Option.some.inj hk
      rw [← he3] at hab
      rw [hab3] at hab
      exact Option.noConfusion hab
    have hkeq : (applyOp s (.act key uid un now)).keys =
        aset s.keys key
          { kd3 with
            activated_by := some uid
            activated_by_username := un
            activated_at := some now } := by
      show (activate_key s key uid un now).2.keys = _
      rw [activate_key_success_eq s key uid un now kd3 hkey hab3 hu]
    rw [hkeq, alookup_aset_ne hne] at hk2
    have he : kd = kd2 := Option.some.inj (hk.symm.trans hk2)
    rw [← he]
    exact hab
  | .del key =>
    show kd2.activated_by = some u
    have hk2b : alookup (delete_key s key).2.keys k = some kd2 := hk2
    match hkd : alookup s.keys key with
    | none =>
      simp only [delete_key, hkd] at hk2b
      have he : kd = kd2 := Option.some.inj (hk.symm.trans hk2b)
      rw [← he]
      exact hab
    | some kd3 =>
      have hkeq : (delete_key s key).2.keys = aremove s.keys key := by
        simp [delete_key, hkd]
      rw [hkeq] at hk2b
      have hne : k ≠ key := by
        intro heq
        rw [heq, alookup_aremove_self] at hk2b
        exact Option.noConfusion hk2b
      rw [alookup_aremove_ne hne] at hk2b
      have he : kd = kd2 := Option.some.inj (hk.symm.trans hk2b)
      rw [← he]
      exact hab

def c2oracle : Nat → Fin 36 := fun _ => 0

/-- The trace refuting claim C2 as stated: user id 0 activates a key, the key is
deleted (the truthiness guard keeps user "0"), the same token is randomly drawn
again, and user 5 activates it. -/
def c2ops : List Op :=
  [.gen c2oracle 1 "t1", .act "AAAA-AAAA-AAAA" 0 none "t2",
   .del "AAAA-AAAA-AAAA", .gen c2oracle 1 "t3",
   .act "AAAA-AAAA-AAAA" 5 none "t4"]

/-- Counterexample to claim C2 as stated: after `c2ops` the store holds two
AuthorizedUser records whose `key_used` are equal — "at most one AuthorizedUser
per `key_used`" fails when activations with user id 0 are allowed. -/
theorem C2_counterexample :
    ¬ (∀ p q, p ∈ (runOps (emptyStore 999) c2ops).users →
        q ∈ (runOps (emptyStore 999) c2ops).users →
        p.2.key_used = q.2.key_used → p = q) := by
  intro hforall
  have he : (runOps (emptyStore 999) c2ops).users =
      [("0", { user_id := 0, username := none, key_used := "AAAA-AAAA-AAAA",
               activated_at := "t2" }),
       ("5", { user_id := 5, username := none, key_used := "AAAA-AAAA-AAAA",
               activated_at := "t4" })] := rfl
  have h := hforall
    ("0", { user_id := 0, username := none, key_used := "AAAA-AAAA-AAAA",
            activated_at := "t2" })
    ("5", { user_id := 5, username := none, key_used := "AAAA-AAAA-AAAA",
            activated_at := "t4" })
    (by rw [he]; simp) (by rw [he]; simp) rfl
  simp at h

/-- Claim C2 (amended to activations with nonzero user ids, the only ids
Telegram produces): starting from the empty store, after any sequence of
`generate_key` / `activate_key` / `delete_key` calls, every stored key has
`activated_by` and `activated_at` both null or both set, there is at most one
user record per `user_id` and at most one per `key_used`, and a set
`activated_by` is never changed or cleared by a further operation while the
key still exists. -/
theorem C2_store_invariants (admin : Int) (ops : List Op)
    (hops : ∀ op ∈ ops, opNonzeroUser op) :
    (∀ p ∈ (runOps (emptyStore admin) ops).keys,
      (p.2.activated_by = none ↔ p.2.activated_at = none)) ∧
    (∀ p q, p ∈ (runOps (emptyStore admin) ops).users →
      q ∈ (runOps (emptyStore admin) ops).users →
      p.2.user_id = q.2.user_id → p = q) ∧
    (∀ p q, p ∈ (runOps (emptyStore admin) ops).users →
      q ∈ (runOps (emptyStore admin) ops).users →
      p.2.key_used = q.2.key_used → p = q) ∧
    (∀ op k kd kd2 u,
      alookup (runOps (emptyStore admin) ops).keys k = some kd →
      kd.activated_by = some u →
      alookup (applyOp (runOps (emptyStore admin) ops) op).keys k = some kd2 →
      kd2.activated_by = some u) := by
  have hinv := storeInv_runOps ops (emptyStore admin) (storeInv_empty admin) hops
  have huserEq : ∀ p q, p ∈ (runOps (emptyStore admin) ops).users →
      q ∈ (runOps (emptyStore admin) ops).users →
      p.2.user_id = q.2.user_id → p = q := by
    intro p q hp hq he
    refine nodup_fst_eq _ hinv.usersNodup p q hp hq ?_
    rw [hinv.usersKeyStr p hp, hinv.usersKeyStr q hq, he]
  refine ⟨hinv.bothNull, huserEq, ?_, ?_⟩
  · intro p q hp hq he
    obtain ⟨kd, hk, ha⟩ := hinv.usersLink p hp
    obtain ⟨kd2, hk2, ha2⟩ := hinv.usersLink q hq
    rw [he] at hk
    have hkk : kd = kd2 := Option.some.inj (hk.symm.trans hk2)
    rw [hkk] at ha
    exact huserEq p q hp hq (Option.some.inj (ha.symm.trans ha2))
  · intro op k kd kd2 u h1 h2 h3
    exact activated_by_stable _ op k kd kd2 u h1 h2 h3

/-- Witness for C2 on a concrete trace: generate a key, activate it as user 5;
the stored key record satisfies the both-set invariant. -/
theorem C2_store_invariants_witness :
    (({ created_at := "t1", activated_by := some 5, activated_by_username := none,
        activated_at := some "t2" } : KeyData).activated_by = none ↔
      ({ created_at := "t1", activated_by := some 5, activated_by_username := none,
         activated_at := some "t2" } : KeyData).activated_at = none) := by
  have hops : ∀ op ∈ ([.gen c2oracle 1 "t1",
      .act "AAAA-AAAA-AAAA" 5 none "t2"] : List Op), opNonzeroUser op := by
    intro op hm
    rcases List.mem_cons.mp hm with rfl | hm2
    · trivial
    rcases List.mem_cons.mp hm2 with rfl | hm3
    · show (5 : Int) ≠ 0
      decide
    · exact absurd hm3 (List.not_mem_nil op)
  have h := (C2_store_invariants 999
    [.gen c2oracle 1 "t1", .act "AAAA-AAAA-AAAA" 5 none "t2"] hops).1
  exact h ("AAAA-AAAA-AAAA",
    { created_at := "t1", activated_by := some 5, activated_by_username := none,
      activated_at := some "t2" }) (by decide)

/-! ## JSON values (`app/services/authedu_client.py`)

The payload handed to `_parse_homeworks` is whatever `response.json()` decoded.
Numbers are modelled as integers (the fields the parser touches are ids, flags
and strings); object entries have unique names, as `json.loads` produces. -/

inductive JsonVal where
  | null
  | bool (b : Bool)
  | num (n : Int)
  | str (s : String)
  | arr (elems : List JsonVal)
  | obj (fields : List (String × JsonVal))

/-- Python truthiness: `None`, `False`, `0`, `""`, `[]`, `{}` are falsy. -/
def truthy : JsonVal → Bool
  | .null => false
  | .bool b => b
  | .num n => decide (n ≠ 0)
  | .str s => decide (s ≠ "")
  | .arr l => !l.isEmpty
  | .obj l => !l.isEmpty

/-- `d.get(k)` (default `None`). -/
def pyGet (fields : List (String × JsonVal)) (k : String) : JsonVal :=
  (alookup fields k).getD .null

/-- Python `a or b`. -/
def pyOr (a b : JsonVal) : JsonVal :=
  if truthy a then a else b

def squoteChar : Char := Char.ofNat 39

mutual
/-- Python `repr()` of a decoded JSON value (quote escaping inside string
reprs is elided; the parser only calls `str()` on the homework field and the
theorems use scalar values there). -/
def pyRepr : JsonVal → String
  | .null => "None"
  | .bool true => "True"
  | .bool false => "False"
  | .num n => toString n
  | .str s => String.mk (squoteChar :: (s.data ++ [squoteChar]))
  | .arr l => "[" ++ pyReprList l ++ "]"
  | .obj l => "\x7b" ++ pyReprObj l ++ "\x7d"

def pyReprList : List JsonVal → String
  | [] => ""
  | [x] => pyRepr x
  | x :: y :: rest => pyRepr x ++ ", " ++ pyReprList (y :: rest)

def pyReprObj : List (String × JsonVal) → String
  | [] => ""
  | [(k, v)] => pyRepr (.str k) ++ ": " ++ pyRepr v
  | (k, v) :: y :: rest => pyRepr (.str k) ++ ": " ++ pyRepr v ++ ", " ++ pyReprObj (y :: rest)
end

/-- Python `str()`. -/
def pyStr : JsonVal → String
  | .str s => s
  | v => pyRepr v

/-! ## Calendar dates

`date.fromisoformat` on a strict `YYYY-MM-DD` string; anything else raises
`ValueError` (modelled as `none`), a non-`str` argument raises `TypeError`
(handled at the call site). -/

structure PyDate where
  year : Nat
  month : Nat
  day : Nat
deriving DecidableEq

def isLeap (y : Nat) : Bool :=
  (y % 4 = 0 && y % 100 ≠ 0) || y % 400 = 0

def daysInMonth (y m : Nat) : Nat :=
  if m = 2 then (if isLeap y then 29 else 28)
  else if m = 4 || m = 6 || m = 9 || m = 11 then 30
  else 31

def digitVal (c : Char) : Nat :=
  c.toNat - 48

def parseIsoDate (s : String) : Option PyDate :=
  match s.data with
  | [y1, y2, y3, y4, h1, m1, m2, h2, d1, d2] =>
    if h1 = '-' && h2 = '-' && ([y1, y2, y3, y4, m1, m2, d1, d2].all Char.isDigit) then
      let y := digitVal y1 * 1000 + digitVal y2 * 100 + digitVal y3 * 10 + digitVal y4
      let m := digitVal m1 * 10 + digitVal m2
      let d := digitVal d1 * 10 + digitVal d2
      if 1 ≤ y && 1 ≤ m && m ≤ 12 && 1 ≤ d && d ≤ daysInMonth y m then
        some { year := y, month := m, day := d }
      else none
    else none
  | _ => none

def dateLt (a b : PyDate) : Bool :=
  a.year < b.year ||
    (a.year = b.year && (a.month < b.month || (a.month = b.month && a.day < b.day)))

/-! ## Parsed homework items

The Python dataclasses annotate `subject: str`, `is_done: bool`,
`title`/`url` as `str`, but nothing enforces the annotations — the parser
stores whatever the payload held, so those fields stay `JsonVal` here. -/

structure MaterialItem where
  title : JsonVal
  url : JsonVal

structure HomeworkItem where
  subject : JsonVal
  homework_date : PyDate
  homework_text : String
  is_done : JsonVal
  materials : List MaterialItem

/-- Exceptions the parser can raise past its `except ValueError`. -/
inductive PyErr where
  | typeError (msg : String)
deriving DecidableEq

/-- The `for url_obj in urls` loop: the first dict entry with a truthy
`"url"` wins (`break`); other elements are skipped. -/
def firstUrl : List JsonVal → Option JsonVal
  | [] => none
  | .obj f :: rest =>
    if truthy (pyGet f "url") then some (pyGet f "url") else firstUrl rest
  | _ :: rest => firstUrl rest

/-- `urls = mat.get("urls") or []` followed by the url loop.  Iterating a
string or a dict yields characters/keys, none of which is a dict, so those
produce no materials; a truthy non-iterable raises `TypeError`. -/
def materialsOfUrls (title : JsonVal) (urlsVal : JsonVal) :
    Except PyErr (List MaterialItem) :=
  match pyOr urlsVal (.arr []) with
  | .arr urls =>
    match firstUrl urls with
    | some u => .ok [{ title := title, url := u }]
    | none => .ok []
  | .str _ => .ok []
  | .obj _ => .ok []
  | _ => .error (.typeError "object is not iterable")

/-- The `for mat in materials_raw` loop body. -/
def parseMaterials : List JsonVal → Except PyErr (List MaterialItem)
  | [] => .ok []
  | mat :: rest =>
    match mat with
    | .obj f =>
      match materialsOfUrls ((alookup f "title").getD (.str "Файл")) (pyGet f "urls") with
      | .error e => .error e
      | .ok first =>
        match parseMaterials rest with
        | .error e => .error e
        | .ok more => .ok (first ++ more)
    | _ => parseMaterials rest

/-- One element of the payload list.  `none` means the element is skipped
(non-dict, empty homework text, or a `ValueError` from an unparsable date
string); a non-`str` date value or a truthy non-list materials value raises
an uncaught `TypeError`. -/
def parseElem (hw : JsonVal) : Except PyErr (Option HomeworkItem) :=
  match hw with
  | .obj f =>
    let text := pyStrip (pyStr (pyOr (pyGet f "homework")
      (pyOr (pyGet f "description") (.str ""))))
    if text = "" then .ok none
    else
      match (alookup f "date").getD (.str "") with
      | .str ds =>
        match parseIsoDate ds with
        | none => .ok none
        | some d =>
          match pyOr (pyGet f "materials") (.arr []) with
          | .arr mats =>
            match parseMaterials mats with
            | .error e => .error e
            | .ok ms =>
              .ok (some
                { subject := (alookup f "subject_name").getD (.str "Без предмета")
                  homework_date := d
                  homework_text := text
                  is_done := (alookup f "is_done").getD (.bool false)
                  materials := ms })
          | .str _ =>
            .ok (some
              { subject := (alookup f "subject_name").getD (.str "Без предмета")
                homework_date := d
                homework_text := text
                is_done := (alookup f "is_done").getD (.bool false)
                materials := [] })
          | .obj _ =>
            .ok (some
              { subject := (alookup f "subject_name").getD (.str "Без предмета")
                homework_date := d
                homework_text := text
                is_done := (alookup f "is_done").getD (.bool false)
                materials := [] })
          | _ => .error (.typeError "object is not iterable")
      | _ => .error (.typeError "fromisoformat: argument must be str")
  | _ => .ok none

def parseItems : List JsonVal → Except PyErr (List HomeworkItem)
  | [] => .ok []
  | hw :: rest =>
    match parseElem hw with
    | .error e => .error e
    | .ok none => parseItems rest
    | .ok (some item) =>
      match parseItems rest with
      | .error e => .error e
      | .ok items => .ok (item :: items)

/-- Python comparison of two subject values inside the sort key.  CPython
raises `TypeError` when it actually compares a mixed-type pair on equal
dates; the model totalises that case (upstream subjects are strings, and no
theorem below relies on the totalised branch). -/
def subjectLe (a b : JsonVal) : Bool :=
  match a, b with
  | .str x, .str y => strLe x y
  | .num x, .num y => decide (x ≤ y)
  | .bool x, .bool y => decide ((if x then (1 : Int) else 0) ≤ (if y then 1 else 0))
  | .bool x, .num y => decide ((if x then (1 : Int) else 0) ≤ y)
  | .num x, .bool y => decide (x ≤ (if y then (1 : Int) else 0))
  | _, _ => true

/-- `items.sort(key=lambda x: (x.homework_date, x.subject))`: tuple order,
subject compared only on a date tie. -/
def hwKeyLe (a b : HomeworkItem) : Bool :=
  dateLt a.homework_date b.homework_date ||
    (decide (a.homework_date = b.homework_date) && subjectLe a.subject b.subject)

/-- `data.get("payload") or data.get("response") or data.get("data") or []`
when the payload is a dict; otherwise the payload itself. -/
def extractPayload (data : JsonVal) : JsonVal :=
  match data with
  | .obj f =>
    pyOr (pyGet f "payload") (pyOr (pyGet f "response") (pyOr (pyGet f "data") (.arr [])))
  | _ => data

/-- `AutheduClient._parse_homeworks(data)`.  A non-list top level returns the
empty list (with a logged warning); each element is parsed per `parseElem`;
the survivors are stably sorted by `(homework_date, subject)`. -/
def parseHomeworks (data : JsonVal) : Except PyErr (List HomeworkItem) :=
  match extractPayload data with
  | .arr l =>
    match parseItems l with
    | .error e => .error e
    | .ok items => .ok (insertionSort hwKeyLe items)
  | _ => .ok []

/-! ## The retry loop of `AutheduClient.fetch_homeworks`

The network is an oracle mapping the attempt index to its outcome: either an
`httpx` network-level failure (caught and retried) or an HTTP response.
`asyncio.sleep` calls are recorded in `sleeps`; `attempts` counts executed
loop iterations.  `AutheduAPIError` raised on a status check propagates
through the `except httpx...` clauses, as do parser exceptions. -/

inductive NetErr where
  | timeout (msg : String)
  | requestError (msg : String)
deriving DecidableEq

inductive Attempt where
  | net (e : NetErr)
  | resp (status : Nat) (body : JsonVal)

inductive ApiErr where
  | tokenExpired
  | forbidden
  | apiStatus (status : Nat)
  | connectionExhausted (tries : Nat) (last : Option NetErr)
deriving DecidableEq

inductive FetchErr where
  | api (e : ApiErr)
  | uncaught (e : PyErr)
deriving DecidableEq

structure FetchResult where
  outcome : Except FetchErr (List HomeworkItem)
  attempts : Nat
  sleeps : List Nat

/-- The body of one loop iteration once a response arrived: the three status
checks, then `response.json()` / `_parse_homeworks`. -/
def respOutcome (status : Nat) (body : JsonVal) : Except FetchErr (List HomeworkItem) :=
  if status = 401 then .error (.api .tokenExpired)
  else if status = 403 then .error (.api .forbidden)
  else if 400 ≤ status then .error (.api (.apiStatus status))
  else
    match parseHomeworks body with
    | .ok items => .ok items
    | .error e => .error (.uncaught e)

/-- `for attempt in range(max_retries)` with `fuel = max_retries - attempt`
remaining iterations; after the loop the connection-exhausted error wraps the
last network error.  `if attempt < max_retries - 1` (that is, `fuel ≠ 0` after
this iteration) sleeps `2 ** attempt` seconds. -/
def fetchGo (oracle : Nat → Attempt) (max_retries : Nat) :
    Nat → Nat → Option NetErr → FetchResult
  | 0, attempt, lastErr =>
    { outcome := .error (.api (.connectionExhausted max_retries lastErr))
      attempts := attempt, sleeps := [] }
  | fuel + 1, attempt, _lastErr =>
    match oracle attempt with
    | .resp status body =>
      { outcome := respOutcome status body, attempts := attempt + 1, sleeps := [] }
    | .net e =>
      let rest := fetchGo oracle max_retries fuel (attempt + 1) (some e)
      if fuel = 0 then rest
      else { outcome := rest.outcome, attempts := rest.attempts
             sleeps := 2 ^ attempt :: rest.sleeps }

/-- `AutheduClient.fetch_homeworks(from_date, to_date, max_retries)`; the date
range only shapes the request parameters, so the model keys the run on the
oracle and the attempt budget. -/
def fetch_homeworks (oracle : Nat → Attempt) (max_retries : Nat) : FetchResult :=
  fetchGo oracle max_retries max_retries 0 none

/-- The source's declared default for `max_retries`. -/
def max_retries_default : Nat := 3

theorem fetchGo_zero (oracle : Nat → Attempt) (m a : Nat) (le : Option NetErr) :
    fetchGo oracle m 0 a le =
      { outcome := .error (.api (.connectionExhausted m le)), attempts := a
        sleeps := [] } := rfl

theorem fetchGo_succ_resp (oracle : Nat → Attempt) (m fuel a : Nat)
    (le : Option NetErr) (st : Nat) (b : JsonVal) (h : oracle a = .resp st b) :
    fetchGo oracle m (fuel + 1) a le =
      { outcome := respOutcome st b, attempts := a + 1, sleeps := [] } := by
  simp [fetchGo, h]

theorem fetchGo_succ_net (oracle : Nat → Attempt) (m fuel a : Nat)
    (le : Option NetErr) (e : NetErr) (h : oracle a = .net e) :
    fetchGo oracle m (fuel + 1) a le =
      if fuel = 0 then fetchGo oracle m fuel (a + 1) (some e)
      else
        { outcome := (fetchGo oracle m fuel (a + 1) (some e)).outcome
          attempts := (fetchGo oracle m fuel (a + 1) (some e)).attempts
          sleeps := 2 ^ a :: (fetchGo oracle m fuel (a + 1) (some e)).sleeps } := by
  simp [fetchGo, h]

theorem fetchGo_attempts_lb (oracle : Nat → Attempt) (m : Nat) :
    ∀ fuel a le, a ≤ (fetchGo oracle m fuel a le).attempts := by
  intro fuel
  induction fuel with
  | zero =>
    intro a le
    rw [fetchGo_zero]
  | succ n ih =>
    intro a le
    cases ho : oracle a with
    | resp st b =>
      rw [fetchGo_succ_resp oracle m n a le st b ho]
      exact Nat.le_succ a
    | net e =>
      rw [fetchGo_succ_net oracle m n a le e ho]
      have h1 := ih (a + 1) (some e)
      split <;> (try dsimp only) <;> omega

theorem fetchGo_attempts_lb1 (oracle : Nat → Attempt) (m : Nat) :
    ∀ fuel a le, fuel ≠ 0 → a + 1 ≤ (fetchGo oracle m fuel a le).attempts := by
  intro fuel a le hf
  match fuel, hf with
  | n + 1, _ =>
    cases ho : oracle a with
    | resp st b =>
      rw [fetchGo_succ_resp oracle m n a le st b ho]
    | net e =>
      rw [fetchGo_succ_net oracle m n a le e ho]
      have h1 := fetchGo_attempts_lb oracle m n (a + 1) (some e)
      split <;> (try dsimp only) <;> omega

theorem fetchGo_attempts_le (oracle : Nat → Attempt) (m : Nat) :
    ∀ fuel a le, (fetchGo oracle m fuel a le).attempts ≤ a + fuel := by
  intro fuel
  induction fuel with
  | zero =>
    intro a le
    rw [fetchGo_zero]
    dsimp only
    omega
  | succ n ih =>
    intro a le
    cases ho : oracle a with
    | resp st b =>
      rw [fetchGo_succ_resp oracle m n a le st b ho]
      dsimp only
      omega
    | net e =>
      rw [fetchGo_succ_net oracle m n a le e ho]
      have h1 := ih (a + 1) (some e)
      split <;> (try dsimp only) <;> omega

theorem fetchGo_net_of_mid (oracle : Nat → Attempt) (m : Nat) :
    ∀ fuel a le i, a ≤ i → i + 1 < (fetchGo oracle m fuel a le).attempts →
      ∃ e, oracle i = .net e := by
  intro fuel
  induction fuel with
  | zero =>
    intro a le i hai hatt
    rw [fetchGo_zero] at hatt
    dsimp only at hatt
    omega
  | succ n ih =>
    intro a le i hai hatt
    cases ho : oracle a with
    | resp st b =>
      rw [fetchGo_succ_resp oracle m n a le st b ho] at hatt
      dsimp only at hatt
      omega
    | net e =>
      have hatt2 : (fetchGo oracle m (n + 1) a le).attempts =
          (fetchGo oracle m n (a + 1) (some e)).attempts := by
        rw [fetchGo_succ_net oracle m n a le e ho]
        split <;> rfl
      rw [hatt2] at hatt
      rcases Nat.eq_or_lt_of_le hai with rfl | hlt
      · exact ⟨e, ho⟩
      · exact ih (a + 1) (some e) i hlt hatt

theorem fetchGo_sleeps (oracle : Nat → Attempt) (m : Nat) :
    ∀ fuel a le, (fetchGo oracle m fuel a le).sleeps =
      (List.range ((fetchGo oracle m fuel a le).attempts - a - 1)).map
        (fun j => 2 ^ (a + j)) := by
  intro fuel
  induction fuel with
  | zero =>
    intro a le
    rw [fetchGo_zero]
    simp
  | succ n ih =>
    intro a le
    cases ho : oracle a with
    | resp st b =>
      rw [fetchGo_succ_resp oracle m n a le st b ho]
      simp
    | net e =>
      rw [fetchGo_succ_net oracle m n a le e ho]
      by_cases h0 : n = 0
      · subst h0
        simp only [if_pos rfl]
        rw [fetchGo_zero]
        simp
      · simp only [if_neg h0]
        have hlb := fetchGo_attempts_lb1 oracle m n (a + 1) (some e) h0
        have hs := ih (a + 1) (some e)
        rw [hs]
        have harith : (fetchGo oracle m n (a + 1) (some e)).attempts - a - 1 =
            ((fetchGo oracle m n (a + 1) (some e)).attempts - (a + 1) - 1) + 1 := by
          omega
        rw [harith, List.range_succ_eq_map, List.map_cons, List.map_map]
        refine congrArg₂ _ (by simp) ?_
        refine congrArg₂ _ ?_ rfl
        funext j
        simp
        ring_nf

theorem fetchGo_exhausted (oracle : Nat → Attempt) (m : Nat) (f : Nat → NetErr) :
    ∀ fuel a le, (∀ i, a ≤ i → i < a + fuel → oracle i = .net (f i)) →
      (fetchGo oracle m fuel a le).outcome =
        .error (.api (.connectionExhausted m
          (if fuel = 0 then le else some (f (a + fuel - 1))))) ∧
      (fetchGo oracle m fuel a le).attempts = a + fuel := by
  intro fuel
  induction fuel with
  | zero =>
    intro a le _
    rw [fetchGo_zero]
    simp
  | succ n ih =>
    intro a le hnet
    have ho : oracle a = .net (f a) := hnet a (Nat.le_refl a) (by omega)
    rw [fetchGo_succ_net oracle m n a le (f a) ho]
    have ihx := ih (a + 1) (some (f a))
      (fun i h1 h2 => hnet i (by omega) (by omega))
    by_cases h0 : n = 0
    · subst h0
      simp only [if_pos rfl]
      rw [fetchGo_zero]
      constructor
      · simp
      · simp
    · simp only [if_neg h0]
      refine ⟨?_, ?_⟩
      · rw [ihx.1, if_neg h0]
        have : a + 1 + n - 1 = a + (n + 1) - 1 := by omega
        rw [this]
        simp
      · rw [ihx.2]
        omega

theorem fetchGo_reach (oracle : Nat → Attempt) (m : Nat) (st : Nat) (b : JsonVal) :
    ∀ k fuel a le, k < fuel →
      (∀ j, j < k → ∃ e, oracle (a + j) = .net e) →
      oracle (a + k) = .resp st b →
      (fetchGo oracle m fuel a le).outcome = respOutcome st b ∧
      (fetchGo oracle m fuel a le).attempts = a + k + 1 := by
  intro k
  induction k with
  | zero =>
    intro fuel a le hk _ hresp
    match fuel, hk with
    | n + 1, _ =>
      rw [fetchGo_succ_resp oracle m n a le st b (by simpa using hresp)]
      simp
  | succ k ih =>
    intro fuel a le hk hnets hresp
    match fuel, hk with
    | n + 1, _ =>
      obtain ⟨e, he⟩ := hnets 0 (Nat.succ_pos k)
      rw [Nat.add_zero] at he
      have hn0 : n ≠ 0 := by omega
      rw [fetchGo_succ_net oracle m n a le e he]
      simp only [if_neg hn0]
      have ihx := ih n (a + 1) (some e) (by omega)
        (fun j hj => by
          obtain ⟨e2, he2⟩ := hnets (j + 1) (by omega)
          exact ⟨e2, by rw [show a + 1 + j = a + (j + 1) by omega]; exact he2⟩)
        (by rw [show a + 1 + k = a + (k + 1) by omega]; exact hresp)
      refine ⟨ihx.1, ?_⟩
      rw [ihx.2]
      omega

/-- Claim C3: `fetch_homeworks` makes at most `max_retries` (default 3)
attempts; only network-level failures are retried, with a `2 ** attempt`
second sleep between attempts; if every attempt fails with a network error
the call fails with a connection-exhausted error wrapping the last network
error; and one network failure followed by a successful response yields the
parsed result with no error. -/
theorem C3_retry_policy (oracle : Nat → Attempt) (m : Nat) :
    max_retries_default = 3 ∧
    (fetch_homeworks oracle m).attempts ≤ m ∧
    (∀ i, i + 1 < (fetch_homeworks oracle m).attempts → ∃ e, oracle i = .net e) ∧
    (fetch_homeworks oracle m).sleeps =
      (List.range ((fetch_homeworks oracle m).attempts - 1)).map (fun j => 2 ^ j) ∧
    (∀ f : Nat → NetErr, 0 < m → (∀ i, i < m → oracle i = .net (f i)) →
      (fetch_homeworks oracle m).outcome =
        .error (.api (.connectionExhausted m (some (f (m - 1))))) ∧
      (fetch_homeworks oracle m).attempts = m) ∧
    (∀ e st b items, oracle 0 = .net e → oracle 1 = .resp st b → st < 400 →
      parseHomeworks b = .ok items → 2 ≤ m →
      (fetch_homeworks oracle m).outcome = .ok items ∧
      (fetch_homeworks oracle m).attempts = 2) := by
  refine ⟨rfl, ?_, ?_, ?_, ?_, ?_⟩
  · have h := fetchGo_attempts_le oracle m m 0 none
    simpa [fetch_homeworks] using h
  · intro i h
    exact fetchGo_net_of_mid oracle m m 0 none i (Nat.zero_le i) h
  · show (fetchGo oracle m m 0 none).sleeps = _
    rw [fetchGo_sleeps oracle m m 0 none]
    simp
    rfl
  · intro f hm hnet
    have h := fetchGo_exhausted oracle m f m 0 none
      (fun i h1 h2 => hnet i (by omega))
    refine ⟨?_, ?_⟩
    · show (fetchGo oracle m m 0 none).outcome = _
      rw [h.1, if_neg (by omega : ¬ m = 0)]
      have hz : 0 + m - 1 = m - 1 := by omega
      rw [hz]
    · show (fetchGo oracle m m 0 none).attempts = m
      rw [h.2]
      omega
  · intro e st b items h0 h1 hst hparse hm
    have h := fetchGo_reach oracle m st b 1 m 0 none (by omega)
      (fun j hj => by
        have hj0 : j = 0 := by omega
        subst hj0
        exact ⟨e, h0⟩)
      h1
    have h401 : ¬ st = 401 := by omega
    have h403 : ¬ st = 403 := by omega
    have hge : ¬ 400 ≤ st := by omega
    refine ⟨?_, ?_⟩
    · show (fetchGo oracle m m 0 none).outcome = _
      rw [h.1]
      simp [respOutcome, h401, h403, hge, hparse]
    · show (fetchGo oracle m m 0 none).attempts = 2
      rw [h.2]

def c3oracle : Nat → Attempt := fun _ => .net (.timeout "ReadTimeout")

/-- Witness for C3: three straight timeouts give exactly three attempts and a
connection-exhausted error wrapping the last timeout. -/
theorem C3_retry_policy_witness :
    (fetch_homeworks c3oracle 3).outcome =
      .error (.api (.connectionExhausted 3 (some (.timeout "ReadTimeout")))) ∧
    (fetch_homeworks c3oracle 3).attempts = 3 :=
  (C3_retry_policy c3oracle 3).2.2.2.2.1 (fun _ => .timeout "ReadTimeout")
    (by decide) (fun i _ => rfl)

/-- Claim C5: once an HTTP response with status ≥ 400 arrives (after any run
of network failures), the fetch stops immediately — no further attempts — and
raises the 401 credential error, the 403 forbidden error, or the generic API
error carrying the status. -/
theorem C5_http_error_immediate (oracle : Nat → Attempt) (m i st : Nat)
    (b : JsonVal) (hnets : ∀ j, j < i → ∃ e, oracle j = .net e)
    (hresp : oracle i = .resp st b) (hst : 400 ≤ st) (him : i < m) :
    (fetch_homeworks oracle m).outcome =
      .error (.api (if st = 401 then .tokenExpired
        else if st = 403 then .forbidden else .apiStatus st)) ∧
    (fetch_homeworks oracle m).attempts = i + 1 := by
  have h := fetchGo_reach oracle m st b i m 0 none him
    (fun j hj => by rw [Nat.zero_add]; exact hnets j hj)
    (by rw [Nat.zero_add]; exact hresp)
  refine ⟨?_, ?_⟩
  · show (fetchGo oracle m m 0 none).outcome = _
    rw [h.1]
    unfold respOutcome
    by_cases h401 : st = 401
    · simp [h401]
    by_cases h403 : st = 403
    · simp [h401, h403]
    · simp [h401, h403, hst]
  · show (fetchGo oracle m m 0 none).attempts = i + 1
    rw [h.2]
    omega

def c5oracle : Nat → Attempt := fun _ => .resp 401 .null

/-- Witness for C5: a 401 on the first attempt fails immediately with the
credential error. -/
theorem C5_http_error_immediate_witness :
    (fetch_homeworks c5oracle 3).outcome = .error (.api .tokenExpired) ∧
    (fetch_homeworks c5oracle 3).attempts = 1 := by
  have h := C5_http_error_immediate c5oracle 3 0 401 .null
    (fun j hj => absurd hj (Nat.not_lt_zero j)) rfl (by decide) (by decide)
  refine ⟨?_, h.2⟩
  rw [h.1]
  rfl

/-! ## `_parse_homeworks` on a malformed element (claim C4) -/

/-- A payload with one well-formed element and one element whose `date` is
JSON `null`. -/
def c4payload : JsonVal :=
  .arr [
    .obj [("homework", .str "Read ch.5"), ("date", .str "2025-12-15"),
      ("subject_name", .str "Math")],
    .obj [("homework", .str "Broken"), ("date", .null)]]

/-- Claim C4 evaluated at the failing input: `hw.get("date", "")` yields
`None` for a present-but-null date, `date.fromisoformat(None)` raises
`TypeError`, and `except ValueError` does not catch it — the whole parse
(and hence the whole fetch) fails, losing the valid sibling element. -/
theorem C4_parse_raises_on_null_date :
    parseHomeworks c4payload =
      .error (.typeError "fromisoformat: argument must be str") ∧
    (fetch_homeworks (fun _ => .resp 200 c4payload) 3).outcome =
      .error (.uncaught (.typeError "fromisoformat: argument must be str")) :=
  ⟨rfl, rfl⟩

end EduCopy
